import Mathlib

/-
  Verification development for the Backtesting-Framework repository
  (src/Core/Backtester.py).

  Shallow embedding conventions:
  * A pandas DataFrame cell that may hold NaN is modelled as `Option ℚ`
    (`none` = NaN); a DataFrame that is known NaN-free is `ℕ → ℕ → ℚ`.
  * Row index `t` ranges over the trading dates `0 .. T-1` shared by the
    price table and the composition matrix (the calendar intersection in
    `calculate_composition_matrix` makes both frames share this index).
  * Column index `a` ranges over the assets `0 .. A-1`.
  * Machine floats are modelled as exact rationals.
  * A Python exception escaping a function is modelled by an `Option`
    result (`none` = the call raised).
-/

namespace Backtester

/-- A date-by-asset table whose cells may be NaN (pandas DataFrame). -/
abbrev OMat := ℕ → ℕ → Option ℚ

/-- A date-by-asset table with no NaN cells. -/
abbrev Mat := ℕ → ℕ → ℚ

/-- Forward fill of one asset column, as pandas `fillna(method=pad)` does
inside `pct_change`: the value at `t` is the most recent non-missing value
at or before `t` (still `none` while no value has appeared yet). -/
def padded (price : OMat) (a : ℕ) : ℕ → Option ℚ
  | 0 => price 0 a
  | t + 1 =>
    match price (t + 1) a with
    | some v => some v
    | none => padded price a t

/-- The rational-valued projection of `self.data.pct_change()` (line 155)
before any fillna: row 0 is NaN; otherwise `padded[t]/padded[t-1] - 1`, NaN
when either padded value is missing.  A zero previous price gives an IEEE
infinity in pandas, which this projection does not represent (it returns
`none` there); `pctRawF` below is the faithful embedding of that path, and
`asset_returnsF_fin` proves the two agree on every price table whose
present prices are strictly positive. -/
def pctRaw (price : OMat) : OMat := fun t a =>
  if t = 0 then none
  else
    match padded price a (t - 1), padded price a t with
    | some p, some c => if p = 0 then none else some (c / p - 1)
    | _, _ => none

/-- pandas `.fillna(0)`: every NaN cell becomes 0. -/
def fillna0 (m : OMat) : Mat := fun t a => (m t a).getD 0

/-- `asset_returns = self.data.pct_change().fillna(0)` (line 155). -/
def asset_returns (price : OMat) : Mat := fillna0 (pctRaw price)

/-- `composition_matrix.shift(1)` before the fillna (line 158): row 0 is
NaN, row `t` holds row `t-1` of the composition matrix. -/
def shiftRaw (comp : OMat) : OMat := fun t a =>
  if t = 0 then none else comp (t - 1) a

/-- `shifted_positions = composition_matrix.shift(1).fillna(0)` (line 158). -/
def shifted_base (comp : OMat) : Mat := fillna0 (shiftRaw comp)

/-- `.abs().sum(axis=1)` of a NaN-free frame over the `A` asset columns. -/
def absRowSum (A : ℕ) (m : Mat) (t : ℕ) : ℚ :=
  ∑ a ∈ Finset.range A, |m t a|

/-- The elementwise `shifted_positions.div(shifted_positions.abs().sum(axis=1), axis=0)`
of line 161, before its fillna.  When the row sum is 0 every in-frame cell
of the row is 0, so the quotient there is 0/0 = NaN (`none`); the ±inf case
x/0 with x ≠ 0 cannot occur for in-frame cells. -/
def normRaw (A : ℕ) (m : Mat) : OMat := fun t a =>
  if absRowSum A m t = 0 then none else some (m t a / absRowSum A m t)

/-- The normalized shifted-position matrix of line 161 (after `.fillna(0)`). -/
def shifted_positions (A : ℕ) (comp : OMat) : Mat :=
  fillna0 (normRaw A (shifted_base comp))

/-- `shifted_positions.diff()`: row 0 is NaN, row `t` is `m[t] - m[t-1]`. -/
def diffRow (m : Mat) : OMat := fun t a =>
  if t = 0 then none else some (m t a - m (t - 1) a)

/-- `.abs().sum(axis=1)` with pandas skipna semantics: NaN cells contribute 0. -/
def sumAbsSkipna (A : ℕ) (m : OMat) (t : ℕ) : ℚ :=
  ∑ a ∈ Finset.range A, |(m t a).getD 0|

/-- One-period turnover `shifted_positions.diff().abs().sum(axis=1)`
(lines 109 and 118); row 0 sums an all-NaN diff row, hence is 0. -/
def turnover (A : ℕ) (m : Mat) (t : ℕ) : ℚ :=
  sumAbsSkipna A (diffRow m) t

/-- `calculate_transaction_costs` (line 109). -/
def calculate_transaction_costs (rate : ℚ) (A : ℕ) (m : Mat) (t : ℕ) : ℚ :=
  turnover A m t * rate

/-- `calculate_slippage_costs` (line 118). -/
def calculate_slippage_costs (rate : ℚ) (A : ℕ) (m : Mat) (t : ℕ) : ℚ :=
  turnover A m t * rate

/-- `asset_contributions = shifted_positions.multiply(asset_returns, axis=0)`
(line 168). -/
def asset_contributions (price comp : OMat) (A : ℕ) : Mat := fun t a =>
  shifted_positions A comp t a * asset_returns price t a

/-- `portfolio_returns = asset_contributions.sum(axis=1) - transaction_costs
- slippage_costs` (line 171). -/
def portfolio_returns (price comp : OMat) (A : ℕ) (tcr slr : ℚ) (t : ℕ) : ℚ :=
  (∑ a ∈ Finset.range A, asset_contributions price comp A t a)
    - calculate_transaction_costs tcr A (shifted_positions A comp) t
    - calculate_slippage_costs slr A (shifted_positions A comp) t

/-- `cumulative_asset_returns = (1 + asset_contributions).cumprod() - 1` (line 174). -/
def cumulative_asset_returns (price comp : OMat) (A : ℕ) : Mat := fun t a =>
  (∏ s ∈ Finset.range (t + 1), (1 + asset_contributions price comp A s a)) - 1

/-- `cumulative_returns = (1 + portfolio_returns).cumprod() - 1` (line 175). -/
def cumulative_returns (price comp : OMat) (A : ℕ) (tcr slr : ℚ) (t : ℕ) : ℚ :=
  (∏ s ∈ Finset.range (t + 1), (1 + portfolio_returns price comp A tcr slr s)) - 1

/-- Per-asset scan state of `evaluate_trade` (lines 125-142):
`lp` = last_position, `ltv` = last_trade_value (a raw price cell, possibly
NaN), `tc` = trade_count, `wc` = win_trade_count. -/
structure TradeState where
  lp : ℚ
  ltv : Option ℚ
  tc : ℕ
  wc : ℕ
deriving Repr, DecidableEq

/-- The win test of lines 136-137.  A comparison against a NaN operand is
false in Python, hence `False` whenever either price is missing. -/
def isWin (lp : ℚ) (ltv cv : Option ℚ) : Prop :=
  match ltv, cv with
  | some l, some c => (0 < lp ∧ l < c) ∨ (lp < 0 ∧ c < l)
  | _, _ => False

instance isWinDecidable (lp : ℚ) (ltv cv : Option ℚ) : Decidable (isWin lp ltv cv) :=
  match ltv, cv with
  | some _, some _ => inferInstanceAs (Decidable (Or _ _))
  | some _, none => inferInstanceAs (Decidable False)
  | none, some _ => inferInstanceAs (Decidable False)
  | none, none => inferInstanceAs (Decidable False)

/-- Body of the date loop of `evaluate_trade` (lines 128-142): no action
when the position is unchanged; otherwise count a trade, classify it, and
reset both `last_trade_value` and `last_position`. -/
def tradeStep (data : OMat) (pos : Mat) (a : ℕ) (s : TradeState) (t : ℕ) : TradeState :=
  if pos t a = s.lp then s
  else
    ⟨pos t a, data t a, s.tc + 1,
      s.wc + if isWin s.lp s.ltv (data t a) then 1 else 0⟩

/-- The date loop of `evaluate_trade` run over dates `t, t+1, ..., t+n-1`. -/
def tradeLoop (data : OMat) (pos : Mat) (a : ℕ) : TradeState → ℕ → ℕ → TradeState
  | s, _, 0 => s
  | s, t, n + 1 => tradeLoop data pos a (tradeStep data pos a s t) (t + 1) n

/-- One asset's full scan (lines 125-142): `pos` is the trimmed
shifted-position window covering original rows `off .. off+n-1`,
`last_position` starts from the window's first row (`pos off a`) while
`last_trade_value` starts from row 0 of the FULL price table (`data 0 a`). -/
def tradeScanAsset (data : OMat) (pos : Mat) (off n a : ℕ) : TradeState :=
  tradeLoop data pos a ⟨pos off a, data 0 a, 0, 0⟩ off n

/-- `evaluate_trade` (lines 120-144) over the window of `n` rows starting
at original row `off`.  `shifted_positions.iloc[0]` raises IndexError on an
empty window as soon as there is at least one asset column: modelled as
`none`.  Counts are accumulated over all assets into a single pair. -/
def evaluate_trade (data : OMat) (pos : Mat) (off n A : ℕ) : Option (ℕ × ℕ) :=
  if n = 0 ∧ A ≠ 0 then none
  else
    some (∑ a ∈ Finset.range A, (tradeScanAsset data pos off n a).tc,
          ∑ a ∈ Finset.range A, (tradeScanAsset data pos off n a).wc)

/-- The five series returned by `calculate_returns` plus the trade pair.
Each matrix-valued series is a list of date rows, each row a list over the
`A` assets; `trade` is `none` when `evaluate_trade` raised. -/
structure RunOutput where
  shifted : List (List ℚ)
  contribs : List (List ℚ)
  portfolio : List ℚ
  cumAsset : List (List ℚ)
  cumulative : List ℚ
  trade : Option (ℕ × ℕ)
deriving Repr, DecidableEq

/-- Date row `t` of the normalized shifted-position frame, over `A` assets. -/
def shiftedRow (A : ℕ) (comp : OMat) (t : ℕ) : List ℚ :=
  (List.range A).map fun a => shifted_positions A comp t a

/-- Date row `t` of the asset-contribution frame, over `A` assets. -/
def contribRow (price comp : OMat) (A t : ℕ) : List ℚ :=
  (List.range A).map fun a => asset_contributions price comp A t a

/-- Date row `t` of the cumulative asset-return frame, over `A` assets. -/
def cumAssetRow (price comp : OMat) (A t : ℕ) : List ℚ :=
  (List.range A).map fun a => cumulative_asset_returns price comp A t a

/-- `calculate_returns` (lines 146-186) over a `T`-row, `A`-column frame:
build the five untrimmed series, drop the first `special_start + 1` rows of
each exactly when `special_start ≠ 1` (lines 177-182), then run
`evaluate_trade` on the already-normalized, already-trimmed positions
together with the full price table (line 184). -/
def calculate_returns (price comp : OMat) (T A ss : ℕ) (tcr slr : ℚ) : RunOutput :=
  let off := if ss ≠ 1 then ss + 1 else 0
  ⟨((List.range T).map (shiftedRow A comp)).drop off,
   ((List.range T).map (contribRow price comp A)).drop off,
   ((List.range T).map (portfolio_returns price comp A tcr slr)).drop off,
   ((List.range T).map (cumAssetRow price comp A)).drop off,
   ((List.range T).map (cumulative_returns price comp A tcr slr)).drop off,
   evaluate_trade price (shifted_positions A comp) off (T - off) A⟩

/-- Running position of the per-asset composition loop (lines 86-98):
value recorded at trading date `ss + k`, starting from position 0 at date
index `ss` and calling the strategy exactly on rebalancing dates.  The
strategy is abstracted as a function of the current date index (standing
for the price history up to that date) and the previous position. -/
def compState (ss : ℕ) (rebal : ℕ → Bool) (strat : ℕ → ℚ → ℚ) : ℕ → ℚ
  | 0 => if rebal ss then strat ss 0 else 0
  | k + 1 =>
    if rebal (ss + (k + 1)) then strat (ss + (k + 1)) (compState ss rebal strat k)
    else compState ss rebal strat k

/-- `calculate_composition_matrix` (lines 58-100, per-asset branch) on a
`T`-row frame: rows before `special_start` are never assigned and stay NaN
(the frame is created with float dtype, so unset cells are NaN); rows from
`special_start` on carry the running position of each asset's loop. -/
def calculate_composition_matrix (T ss : ℕ) (rebal : ℕ → Bool)
    (strat : ℕ → ℕ → ℚ → ℚ) : OMat := fun t a =>
  if ss ≤ t ∧ t < T then some (compState ss rebal (strat a) (t - ss)) else none

/-- The `Result` record assembled by `run` (lines 50-55). -/
structure Result where
  portfolioReturns : List ℚ
  cumulativeReturns : List ℚ
  riskFreeRate : ℚ
  tradeStats : ℕ × ℕ
deriving Repr, DecidableEq

/-- `run` (lines 39-56): build the composition matrix, compute the return
series, and package a `Result`.  An exception escaping `evaluate_trade`
aborts the run before any `Result` exists: modelled by `Option.map`. -/
def run (price : OMat) (T A ss : ℕ) (tcr slr : ℚ) (rebal : ℕ → Bool)
    (strat : ℕ → ℕ → ℚ → ℚ) : Option Result :=
  let comp := calculate_composition_matrix T ss rebal strat
  let out := calculate_returns price comp T A ss tcr slr
  out.trade.map fun ts => ⟨out.portfolio, out.cumulative, 0, ts⟩

/-! ### Faithful float cells: finite rationals, IEEE infinities and NaN

The return pipeline of `calculate_returns` can produce IEEE infinities
(`price[t-1] = 0 < price[t]` makes `pct_change` give `+inf`, which
`fillna(0)` does NOT remove) and, downstream, `0 * inf = NaN` cells.  The
definitions below re-run lines 155-175 over a cell type that represents
those values exactly. -/

/-- A float cell: a finite rational, `+inf`, `-inf`, or NaN. -/
inductive FV where
  | fin (q : ℚ)
  | pinf
  | ninf
  | nan
deriving Repr, DecidableEq

/-- `self.data.pct_change()` (line 155) with the IEEE division-by-zero
semantics: row 0 is NaN, a missing padded operand gives NaN, a zero
previous price gives `±inf` (NaN when the current price is also 0), and
otherwise the finite rational `c/p - 1`. -/
def pctRawF (price : OMat) (t a : ℕ) : FV :=
  if t = 0 then FV.nan
  else
    match padded price a (t - 1), padded price a t with
    | some p, some c =>
        if p = 0 then
          if c = 0 then FV.nan else if 0 < c then FV.pinf else FV.ninf
        else FV.fin (c / p - 1)
    | _, _ => FV.nan

/-- pandas `.fillna(0)` on float cells: NaN becomes 0, infinities stay. -/
def fillna0F (x : FV) : FV :=
  match x with
  | FV.nan => FV.fin 0
  | y => y

/-- `asset_returns = self.data.pct_change().fillna(0)` (line 155), faithful. -/
def asset_returnsF (price : OMat) (t a : ℕ) : FV :=
  fillna0F (pctRawF price t a)

/-- IEEE product of a finite float weight and a float cell:
`0 * ±inf = NaN`, a nonzero weight flips the infinity by its sign. -/
def smulFV (w : ℚ) (x : FV) : FV :=
  match x with
  | FV.fin q => FV.fin (w * q)
  | FV.pinf => if w = 0 then FV.nan else if 0 < w then FV.pinf else FV.ninf
  | FV.ninf => if w = 0 then FV.nan else if 0 < w then FV.ninf else FV.pinf
  | FV.nan => FV.nan

/-- IEEE product of two float cells (for the cumulative products). -/
def mulFV (x y : FV) : FV :=
  match x, y with
  | FV.fin p, FV.fin q => FV.fin (p * q)
  | FV.fin p, FV.pinf => if p = 0 then FV.nan else if 0 < p then FV.pinf else FV.ninf
  | FV.fin p, FV.ninf => if p = 0 then FV.nan else if 0 < p then FV.ninf else FV.pinf
  | FV.pinf, FV.fin q => if q = 0 then FV.nan else if 0 < q then FV.pinf else FV.ninf
  | FV.ninf, FV.fin q => if q = 0 then FV.nan else if 0 < q then FV.ninf else FV.pinf
  | FV.pinf, FV.pinf => FV.pinf
  | FV.pinf, FV.ninf => FV.ninf
  | FV.ninf, FV.pinf => FV.ninf
  | FV.ninf, FV.ninf => FV.pinf
  | _, _ => FV.nan

/-- Subtract a finite rational from a float cell (the cost subtractions of
line 171 and the `- 1` of lines 174-175): infinities absorb, NaN stays. -/
def subQ (x : FV) (r : ℚ) : FV :=
  match x with
  | FV.fin q => FV.fin (q - r)
  | y => y

/-- `1 + cell` (lines 174-175): infinities absorb, NaN stays. -/
def addQ1 (x : FV) : FV :=
  match x with
  | FV.fin q => FV.fin (1 + q)
  | y => y

/-- The finite value of a cell, 0 otherwise (used by the skipna sum). -/
def toQ0 (x : FV) : ℚ :=
  match x with
  | FV.fin q => q
  | _ => 0

/-- pandas `.sum(axis=1)` over float cells with skipna: NaN cells are
skipped, opposite infinities give NaN, a surviving infinity dominates, and
an all-skipped row sums to 0. -/
def rowSumF (A : ℕ) (f : ℕ → FV) : FV :=
  let l := (List.range A).map f
  if FV.pinf ∈ l ∧ FV.ninf ∈ l then FV.nan
  else if FV.pinf ∈ l then FV.pinf
  else if FV.ninf ∈ l then FV.ninf
  else FV.fin (∑ a ∈ Finset.range A, toQ0 (f a))

/-- Line 168, faithful: the finite normalized weight times the float
asset return; a zero weight on an infinite return gives NaN. -/
def asset_contributionsF (price comp : OMat) (A : ℕ) (t a : ℕ) : FV :=
  smulFV (shifted_positions A comp t a) (asset_returnsF price t a)

/-- Line 171, faithful: the skipna row sum of contributions minus the
(finite) transaction and slippage costs. -/
def portfolio_returnsF (price comp : OMat) (A : ℕ) (tcr slr : ℚ) (t : ℕ) : FV :=
  subQ (subQ (rowSumF A (fun a => asset_contributionsF price comp A t a))
      (calculate_transaction_costs tcr A (shifted_positions A comp) t))
    (calculate_slippage_costs slr A (shifted_positions A comp) t)

/-- Line 174, faithful: `(1 + contributions).cumprod() - 1` over float cells. -/
def cumulative_asset_returnsF (price comp : OMat) (A : ℕ) (t a : ℕ) : FV :=
  subQ (((List.range (t + 1)).map fun s =>
    addQ1 (asset_contributionsF price comp A s a)).foldl mulFV (FV.fin 1)) 1

/-- Line 175, faithful: `(1 + portfolio_returns).cumprod() - 1` over float cells. -/
def cumulative_returnsF (price comp : OMat) (A : ℕ) (tcr slr : ℚ) (t : ℕ) : FV :=
  subQ (((List.range (t + 1)).map fun s =>
    addQ1 (portfolio_returnsF price comp A tcr slr s)).foldl mulFV (FV.fin 1)) 1

/-- Date row `t` of the faithful contribution frame, over `A` assets. -/
def contribRowF (price comp : OMat) (A t : ℕ) : List FV :=
  (List.range A).map fun a => asset_contributionsF price comp A t a

/-- Date row `t` of the faithful cumulative asset-return frame. -/
def cumAssetRowF (price comp : OMat) (A t : ℕ) : List FV :=
  (List.range A).map fun a => cumulative_asset_returnsF price comp A t a

/-- The output of `calculate_returns` with float-faithful value cells
(positions stay finite rationals; the trade pair is value-independent of
the return cells and is unchanged). -/
structure RunOutputF where
  shifted : List (List ℚ)
  contribs : List (List FV)
  portfolio : List FV
  cumAsset : List (List FV)
  cumulative : List FV
  trade : Option (ℕ × ℕ)
deriving Repr, DecidableEq

/-- `calculate_returns` (lines 146-186) over float-faithful cells: same
trimming and trade evaluation as `calculate_returns`, with the four
return-valued series carried as float cells. -/
def calculate_returnsF (price comp : OMat) (T A ss : ℕ) (tcr slr : ℚ) : RunOutputF :=
  let off := if ss ≠ 1 then ss + 1 else 0
  ⟨((List.range T).map (shiftedRow A comp)).drop off,
   ((List.range T).map (contribRowF price comp A)).drop off,
   ((List.range T).map (portfolio_returnsF price comp A tcr slr)).drop off,
   ((List.range T).map (cumAssetRowF price comp A)).drop off,
   ((List.range T).map (cumulative_returnsF price comp A tcr slr)).drop off,
   evaluate_trade price (shifted_positions A comp) off (T - off) A⟩

/-! ### Concrete example inputs used by scenarios and witnesses -/

/-- A tiny example composition matrix: row 0 decided, later rows NaN. -/
def cExA : OMat := fun t _ => if t = 0 then some 3 else none

/-- A second composition matrix agreeing with `cExA` strictly before row 1. -/
def cExB : OMat := fun t _ => if t = 0 then some 3 else some 99

/-- A composition matrix holding position 1 at every date. -/
def cExC : OMat := fun _ _ => some 1

/-- Concrete positions for the C5 witness: one change from 1 to 2 at date 1. -/
def posEx : Mat := fun t _ => if t = 0 then 1 else 2

/-- Concrete prices for the C5 witness. -/
def dataEx : OMat := fun t _ => some (if t = 0 then 10 else 20)

/-- Positions for the C9 witness: one asset entering from 0 to 1 at date 2. -/
def posEx9 : Mat := fun t _ => if t < 2 then 0 else 1

/-- Positions for the C10 demonstration: in position 1 through date 2,
flat from date 3 on; the evaluated window is rows 2 and 3. -/
def pC10 : Mat := fun t _ => if t ≤ 2 then 1 else 0

/-- A price table whose warm-up price (row 0) is 100. -/
def d1C10 : OMat := fun t _ => some (if t = 0 then 100 else 150)

/-- A price table agreeing with `d1C10` everywhere except at row 0. -/
def d2C10 : OMat := fun t _ => some (if t = 0 then 200 else 150)

/-- A price table agreeing with `d1C10` at row 0 and on the window rows 2
and 3, but different at row 4 (outside both). -/
def d3C10 : OMat := fun t a => if t = 4 then some 999 else d1C10 t a

/-- A 2-row, 1-column price table of constant price 1. -/
def p3 : OMat := fun _ _ => some 1

/-- Every date is a rebalancing date. -/
def reb3 : ℕ → Bool := fun _ => true

/-- A strategy that always returns position 1. -/
def strat3 : ℕ → ℕ → ℚ → ℚ := fun _ _ _ => 1

/-- The composition matrix built with `special_start = 5` on the 2-row table. -/
def c3 : OMat := calculate_composition_matrix 2 5 reb3 strat3

/-- The scenario price path [100, 110, 99, 99, 120]. -/
def pval : ℕ → ℚ
  | 0 => 100
  | 1 => 110
  | 2 => 99
  | 3 => 99
  | 4 => 120
  | _ => 0

/-- Single-asset price table for scenario 1. -/
def p6 : OMat := fun t _ => some (pval t)

/-- The single rebalancing date is date 0. -/
def reb6 : ℕ → Bool := fun t => decide (t = 0)

/-- The scenario strategy always returns position 1. -/
def strat6 : ℕ → ℕ → ℚ → ℚ := fun _ _ _ => 1

/-- Scenario 1 composition matrix (`special_start = 0`, the only value at
which the date-0 rebalancing call actually happens). -/
def c6 : OMat := calculate_composition_matrix 5 0 reb6 strat6

/-- A single-asset price table with a zero price followed by a positive
one: `pct_change` gives `+inf` at date 1. -/
def p7 : OMat := fun t _ => some (if t = 0 then 0 else 5)

/-- A two-asset price table: asset 0 has a zero price followed by a
positive one, asset 1 has constant price 1. -/
def p8 : OMat := fun t a => some (if a = 0 then (if t = 0 then 0 else 5) else 1)

/-- A two-asset composition matrix holding weights [0, 1] at every date:
asset 0 carries weight 0 exactly where its return is infinite. -/
def c8 : OMat := fun _ a => if a = 0 then some 0 else some 1

/-! ### Helper lemmas on the return pipeline -/

lemma shifted_base_zero (comp : OMat) (a : ℕ) : shifted_base comp 0 a = 0 := rfl

lemma shifted_base_succ (comp : OMat) (t a : ℕ) :
    shifted_base comp (t + 1) a = (comp t a).getD 0 := rfl

lemma absRowSum_nonneg (A : ℕ) (m : Mat) (t : ℕ) : 0 ≤ absRowSum A m t :=
  Finset.sum_nonneg fun _ _ => abs_nonneg _

lemma absRowSum_eq_zero_iff (A : ℕ) (m : Mat) (t : ℕ) :
    absRowSum A m t = 0 ↔ ∀ a, a < A → m t a = 0 := by
  unfold absRowSum
  rw [Finset.sum_eq_zero_iff_of_nonneg fun a _ => abs_nonneg _]
  constructor
  · intro h a ha
    exact abs_eq_zero.mp (h a (Finset.mem_range.mpr ha))
  · intro h a ha
    rw [h a (Finset.mem_range.mp ha), abs_zero]

lemma shifted_positions_eq (A : ℕ) (comp : OMat) (t a : ℕ) :
    shifted_positions A comp t a =
      if absRowSum A (shifted_base comp) t = 0 then 0
      else shifted_base comp t a / absRowSum A (shifted_base comp) t := by
  unfold shifted_positions fillna0 normRaw
  split <;> simp

lemma shifted_positions_zero_row (A : ℕ) (comp : OMat) (t : ℕ)
    (h : absRowSum A (shifted_base comp) t = 0) (a : ℕ) :
    shifted_positions A comp t a = 0 := by
  rw [shifted_positions_eq, if_pos h]

lemma absRowSum_norm_one (A : ℕ) (comp : OMat) (t : ℕ)
    (h : absRowSum A (shifted_base comp) t ≠ 0) :
    absRowSum A (shifted_positions A comp) t = 1 := by
  have hpos : 0 < absRowSum A (shifted_base comp) t :=
    (absRowSum_nonneg A _ t).lt_of_ne (Ne.symm h)
  have hcell : ∀ a ∈ Finset.range A,
      |shifted_positions A comp t a|
        = |shifted_base comp t a| / absRowSum A (shifted_base comp) t := by
    intro a _
    rw [shifted_positions_eq, if_neg h, abs_div, abs_of_pos hpos]
  show ∑ a ∈ Finset.range A, |shifted_positions A comp t a| = 1
  rw [Finset.sum_congr rfl hcell, ← Finset.sum_div]
  exact div_self h

/-! ### Claims C1 and C2 -/

/-- Claim C1: in `calculate_returns`, for every composition matrix, the
shifted position matrix used for return computation satisfies
`shiftedPositions[t] = compositionMatrix[t-1]` for every `t > 0` (NaN
composition entries becoming 0) and `shiftedPositions[0] = 0` for every
asset; moreover `shiftedPositions[t]` depends only on rows `0 .. t-1` of
the composition matrix, so the position whose return is realized at date
`t` is the one decided at date `t-1`. -/
theorem C1_shift_no_lookahead :
    (∀ comp : OMat, ∀ a, shifted_base comp 0 a = 0) ∧
    (∀ comp : OMat, ∀ t a, 0 < t → shifted_base comp t a = (comp (t - 1) a).getD 0) ∧
    (∀ comp comp' : OMat, ∀ t a,
        (∀ s b, s < t → comp s b = comp' s b) →
        shifted_base comp t a = shifted_base comp' t a) := by
  refine ⟨fun comp a => rfl, fun comp t a ht => ?_, fun comp comp' t a h => ?_⟩
  · cases t with
    | zero => exact absurd ht (lt_irrefl 0)
    | succ s => rfl
  · cases t with
    | zero => rfl
    | succ s =>
      rw [shifted_base_succ, shifted_base_succ, h s a (Nat.lt_succ_self s)]

/-- Witness for C1 at a concrete composition matrix and date. -/
theorem C1_shift_no_lookahead_witness :
    0 < 1 ∧ shifted_base cExA 1 0 = (cExA 0 0).getD 0 ∧
      shifted_base cExA 1 0 = shifted_base cExB 1 0 :=
  ⟨Nat.one_pos,
   C1_shift_no_lookahead.2.1 cExA 1 0 Nat.one_pos,
   C1_shift_no_lookahead.2.2 cExA cExB 1 0 (by
     intro s b hs
     have hs0 : s = 0 := Nat.lt_one_iff.mp hs
     subst hs0
     rfl)⟩

/-- Claim C2: after row normalization in `calculate_returns`, every row of
the normalized shifted-position matrix has absolute-weight sum exactly 1 or
exactly 0; the sum is 0 only when the pre-normalization row was entirely
zero; and a pre-normalization row with zero absolute sum is mapped to an
all-zero row rather than NaN or an error. -/
theorem C2_normalization_rows :
    ∀ (A : ℕ) (comp : OMat) (t : ℕ),
      (absRowSum A (shifted_positions A comp) t = 1 ∨
        absRowSum A (shifted_positions A comp) t = 0) ∧
      (absRowSum A (shifted_positions A comp) t = 0 →
        ∀ a, a < A → shifted_base comp t a = 0) ∧
      (absRowSum A (shifted_base comp) t = 0 →
        ∀ a, shifted_positions A comp t a = 0) := by
  intro A comp t
  by_cases h : absRowSum A (shifted_base comp) t = 0
  · have hz : ∀ a, shifted_positions A comp t a = 0 :=
      shifted_positions_zero_row A comp t h
    have hsum0 : absRowSum A (shifted_positions A comp) t = 0 := by
      apply Finset.sum_eq_zero
      intro a _
      rw [hz a, abs_zero]
    exact ⟨Or.inr hsum0,
      fun _ a ha => (absRowSum_eq_zero_iff A _ t).mp h a ha,
      fun _ => hz⟩
  · have h1 := absRowSum_norm_one A comp t h
    exact ⟨Or.inl h1,
      fun hc => absurd (h1.symm.trans hc) one_ne_zero,
      fun hb => absurd hb h⟩

/-- Witness for C2: a degenerate row is mapped to zero and a live row
normalizes to absolute sum 1 on a concrete matrix. -/
theorem C2_normalization_rows_witness :
    shifted_positions 1 cExA 0 0 = 0 ∧
      (absRowSum 1 (shifted_positions 1 cExA) 1 = 1 ∨
        absRowSum 1 (shifted_positions 1 cExA) 1 = 0) :=
  ⟨(C2_normalization_rows 1 cExA 0).2.2
      (by simp [absRowSum, shifted_base, fillna0, shiftRaw]) 0,
   (C2_normalization_rows 1 cExA 1).1⟩

/-! ### List indexing helpers for the trimmed output series -/

lemma drop_map_range_length {α : Type} (f : ℕ → α) (T off : ℕ) :
    (((List.range T).map f).drop off).length = T - off := by
  simp

lemma drop_map_range_get {α : Type} (f : ℕ → α) (T off i : ℕ) :
    (((List.range T).map f).drop off)[i]?
      = if off + i < T then some (f (off + i)) else none := by
  rw [List.getElem?_drop, List.getElem?_map]
  by_cases h : off + i < T
  · rw [List.getElem?_range h, if_pos h]
    rfl
  · rw [if_neg h]
    rw [List.getElem?_eq_none (by simpa using Nat.le_of_not_lt h)]
    rfl

/-- Claim C4: exactly when `specialStart ≠ 1`, the first `specialStart + 1`
rows are dropped from every output series of `calculate_returns`, and the
trade statistics are computed from the already-normalized shifted-position
matrix restricted to the trimmed window; when `specialStart = 1` nothing is
dropped and the trade evaluator sees the whole window. -/
theorem C4_warmup_trim :
    ∀ (price comp : OMat) (T A ss : ℕ) (tcr slr : ℚ),
      (ss ≠ 1 →
        ((calculate_returns price comp T A ss tcr slr).shifted.length = T - (ss + 1) ∧
         (calculate_returns price comp T A ss tcr slr).contribs.length = T - (ss + 1) ∧
         (calculate_returns price comp T A ss tcr slr).portfolio.length = T - (ss + 1) ∧
         (calculate_returns price comp T A ss tcr slr).cumAsset.length = T - (ss + 1) ∧
         (calculate_returns price comp T A ss tcr slr).cumulative.length = T - (ss + 1)) ∧
        (∀ i,
          (calculate_returns price comp T A ss tcr slr).shifted[i]?
            = (if ss + 1 + i < T then some (shiftedRow A comp (ss + 1 + i)) else none) ∧
          (calculate_returns price comp T A ss tcr slr).contribs[i]?
            = (if ss + 1 + i < T then some (contribRow price comp A (ss + 1 + i)) else none) ∧
          (calculate_returns price comp T A ss tcr slr).portfolio[i]?
            = (if ss + 1 + i < T then
                some (portfolio_returns price comp A tcr slr (ss + 1 + i)) else none) ∧
          (calculate_returns price comp T A ss tcr slr).cumAsset[i]?
            = (if ss + 1 + i < T then some (cumAssetRow price comp A (ss + 1 + i)) else none) ∧
          (calculate_returns price comp T A ss tcr slr).cumulative[i]?
            = (if ss + 1 + i < T then
                some (cumulative_returns price comp A tcr slr (ss + 1 + i)) else none)) ∧
        (calculate_returns price comp T A ss tcr slr).trade
          = evaluate_trade price (shifted_positions A comp) (ss + 1) (T - (ss + 1)) A) ∧
      (ss = 1 →
        (calculate_returns price comp T A ss tcr slr).shifted
            = (List.range T).map (shiftedRow A comp) ∧
        (calculate_returns price comp T A ss tcr slr).contribs
            = (List.range T).map (contribRow price comp A) ∧
        (calculate_returns price comp T A ss tcr slr).portfolio
            = (List.range T).map (portfolio_returns price comp A tcr slr) ∧
        (calculate_returns price comp T A ss tcr slr).cumAsset
            = (List.range T).map (cumAssetRow price comp A) ∧
        (calculate_returns price comp T A ss tcr slr).cumulative
            = (List.range T).map (cumulative_returns price comp A tcr slr) ∧
        (calculate_returns price comp T A ss tcr slr).trade
          = evaluate_trade price (shifted_positions A comp) 0 T A) := by
  intro price comp T A ss tcr slr
  constructor
  · intro h
    have hoff : (if ss ≠ 1 then ss + 1 else 0) = ss + 1 := if_pos h
    have htrade : (calculate_returns price comp T A ss tcr slr).trade
        = evaluate_trade price (shifted_positions A comp) (ss + 1) (T - (ss + 1)) A := by
      simp only [calculate_returns, hoff]
    refine ⟨⟨?_, ?_, ?_, ?_, ?_⟩, fun i => ⟨?_, ?_, ?_, ?_, ?_⟩, htrade⟩ <;>
      · simp only [calculate_returns, hoff]
        first
          | exact drop_map_range_length _ T (ss + 1)
          | exact drop_map_range_get _ T (ss + 1) _
  · intro h
    subst h
    exact ⟨rfl, rfl, rfl, rfl, rfl, rfl⟩

/-- Witness for C4 at concrete trimmed and untrimmed configurations. -/
theorem C4_warmup_trim_witness :
    ((calculate_returns cExA cExA 5 1 0 0 0).portfolio.length = 5 - (0 + 1) ∧
      (calculate_returns cExA cExA 5 1 0 0 0).trade
        = evaluate_trade cExA (shifted_positions 1 cExA) (0 + 1) (5 - (0 + 1)) 1) ∧
    (calculate_returns cExA cExA 5 1 1 0 0).trade
      = evaluate_trade cExA (shifted_positions 1 cExA) 0 5 1 :=
  ⟨⟨((C4_warmup_trim cExA cExA 5 1 0 0 0).1 (by simp)).1.2.2.1,
    ((C4_warmup_trim cExA cExA 5 1 0 0 0).1 (by simp)).2.2⟩,
   ((C4_warmup_trim cExA cExA 5 1 1 0 0).2 rfl).2.2.2.2.2⟩

/-! ### Refinement: on positive-price tables the float pipeline is finite
and agrees with the rational pipeline -/

lemma padded_pos (price : OMat) (hpos : ∀ u b q, price u b = some q → 0 < q) :
    ∀ k a q, padded price a k = some q → 0 < q := by
  intro k
  induction k with
  | zero => intro a q h; exact hpos 0 a q h
  | succ m ih =>
    intro a q h
    unfold padded at h
    cases hc : price (m + 1) a with
    | some v =>
      rw [hc] at h
      simp only [Option.some.injEq] at h
      subst h
      exact hpos (m + 1) a v hc
    | none =>
      rw [hc] at h
      exact ih a q h

lemma asset_returnsF_fin (price : OMat)
    (hpos : ∀ u b q, price u b = some q → 0 < q) (t a : ℕ) :
    asset_returnsF price t a = FV.fin (asset_returns price t a) := by
  unfold asset_returnsF asset_returns fillna0F fillna0
  by_cases ht : t = 0
  · subst ht
    rfl
  · cases hp : padded price a (t - 1) with
    | none =>
      have h1 : pctRawF price t a = FV.nan := by
        unfold pctRawF
        rw [if_neg ht, hp]
      have h2 : pctRaw price t a = none := by
        unfold pctRaw
        rw [if_neg ht, hp]
      rw [h1, h2]
      rfl
    | some p =>
      cases hc : padded price a t with
      | none =>
        have h1 : pctRawF price t a = FV.nan := by
          unfold pctRawF
          rw [if_neg ht, hp, hc]
        have h2 : pctRaw price t a = none := by
          unfold pctRaw
          rw [if_neg ht, hp, hc]
        rw [h1, h2]
        rfl
      | some c =>
        have hp0 : p ≠ 0 := ne_of_gt (padded_pos price hpos (t - 1) a p hp)
        have h1 : pctRawF price t a = FV.fin (c / p - 1) := by
          unfold pctRawF
          rw [if_neg ht, hp, hc]
          show (if p = 0 then
              (if c = 0 then FV.nan else if 0 < c then FV.pinf else FV.ninf)
            else FV.fin (c / p - 1)) = FV.fin (c / p - 1)
          rw [if_neg hp0]
        have h2 : pctRaw price t a = some (c / p - 1) := by
          unfold pctRaw
          rw [if_neg ht, hp, hc]
          show (if p = 0 then none else some (c / p - 1)) = some (c / p - 1)
          rw [if_neg hp0]
        rw [h1, h2]
        rfl

lemma rowSumF_fin (A : ℕ) (f : ℕ → FV) (g : ℕ → ℚ)
    (h : ∀ a, a < A → f a = FV.fin (g a)) :
    rowSumF A f = FV.fin (∑ a ∈ Finset.range A, g a) := by
  have hmem : ∀ x ∈ (List.range A).map f, ∃ q, x = FV.fin q := by
    intro x hx
    obtain ⟨a, ha, rfl⟩ := List.mem_map.mp hx
    exact ⟨g a, h a (List.mem_range.mp ha)⟩
  have hnp : FV.pinf ∉ (List.range A).map f := by
    intro hm
    obtain ⟨q, hq⟩ := hmem _ hm
    exact FV.noConfusion hq
  have hnn : FV.ninf ∉ (List.range A).map f := by
    intro hm
    obtain ⟨q, hq⟩ := hmem _ hm
    exact FV.noConfusion hq
  unfold rowSumF
  rw [if_neg fun hb => hnp hb.1, if_neg hnp, if_neg hnn]
  congr 1
  apply Finset.sum_congr rfl
  intro a ha
  rw [h a (Finset.mem_range.mp ha)]
  rfl

lemma contribF_fin (price comp : OMat) (A : ℕ)
    (hpos : ∀ u b q, price u b = some q → 0 < q) (t a : ℕ) :
    asset_contributionsF price comp A t a
      = FV.fin (asset_contributions price comp A t a) := by
  unfold asset_contributionsF asset_contributions
  rw [asset_returnsF_fin price hpos t a]
  rfl

lemma portfolioF_fin (price comp : OMat) (A : ℕ) (tcr slr : ℚ)
    (hpos : ∀ u b q, price u b = some q → 0 < q) (t : ℕ) :
    portfolio_returnsF price comp A tcr slr t
      = FV.fin (portfolio_returns price comp A tcr slr t) := by
  unfold portfolio_returnsF portfolio_returns
  rw [rowSumF_fin A _ (fun a => asset_contributions price comp A t a)
      fun a _ => contribF_fin price comp A hpos t a]
  rfl

lemma map_range_congr {α : Type} (n : ℕ) (f g : ℕ → α)
    (h : ∀ s, s < n → f s = g s) :
    (List.range n).map f = (List.range n).map g :=
  List.map_congr_left fun a ha => h a (List.mem_range.mp ha)

lemma foldl_mulFV_fin (g : ℕ → ℚ) :
    ∀ (n : ℕ) (x : ℚ),
      ((List.range n).map fun s => FV.fin (g s)).foldl mulFV (FV.fin x)
        = FV.fin (x * ∏ s ∈ Finset.range n, g s) := by
  intro n
  induction n with
  | zero =>
    intro x
    simp
  | succ m ih =>
    intro x
    rw [List.range_succ, List.map_append, List.foldl_append, ih x,
      List.map_singleton]
    show FV.fin ((x * ∏ s ∈ Finset.range m, g s) * g m) = _
    rw [Finset.prod_range_succ, mul_assoc]

lemma cumAssetF_fin (price comp : OMat) (A : ℕ)
    (hpos : ∀ u b q, price u b = some q → 0 < q) (t a : ℕ) :
    cumulative_asset_returnsF price comp A t a
      = FV.fin (cumulative_asset_returns price comp A t a) := by
  unfold cumulative_asset_returnsF cumulative_asset_returns
  have hmap : ((List.range (t + 1)).map fun s =>
        addQ1 (asset_contributionsF price comp A s a))
      = (List.range (t + 1)).map fun s =>
        FV.fin (1 + asset_contributions price comp A s a) := by
    apply map_range_congr
    intro s _
    rw [contribF_fin price comp A hpos s a]
    rfl
  rw [hmap, foldl_mulFV_fin _ (t + 1) 1, one_mul]
  rfl

lemma cumRetF_fin (price comp : OMat) (A : ℕ) (tcr slr : ℚ)
    (hpos : ∀ u b q, price u b = some q → 0 < q) (t : ℕ) :
    cumulative_returnsF price comp A tcr slr t
      = FV.fin (cumulative_returns price comp A tcr slr t) := by
  unfold cumulative_returnsF cumulative_returns
  have hmap : ((List.range (t + 1)).map fun s =>
        addQ1 (portfolio_returnsF price comp A tcr slr s))
      = (List.range (t + 1)).map fun s =>
        FV.fin (1 + portfolio_returns price comp A tcr slr s) := by
    apply map_range_congr
    intro s _
    rw [portfolioF_fin price comp A tcr slr hpos s]
    rfl
  rw [hmap, foldl_mulFV_fin _ (t + 1) 1, one_mul]
  rfl

/-! ### Claim C8: counterexample and amended statement -/

lemma shifted_base_c8 (a : ℕ) : shifted_base c8 1 a = if a = 0 then 0 else 1 := by
  rw [shifted_base_succ]
  unfold c8
  split <;> rfl

lemma absRowSum_c8 : absRowSum 2 (shifted_base c8) 1 = 1 := by
  unfold absRowSum
  rw [Finset.sum_range_succ, Finset.sum_range_one, shifted_base_c8 0, shifted_base_c8 1]
  norm_num

lemma sp_c8_0 : shifted_positions 2 c8 1 0 = 0 := by
  rw [shifted_positions_eq, absRowSum_c8, shifted_base_c8 0]
  norm_num

lemma sp_c8_1 : shifted_positions 2 c8 1 1 = 1 := by
  rw [shifted_positions_eq, absRowSum_c8, shifted_base_c8 1]
  norm_num

lemma row0_zero_c8 : absRowSum 2 (shifted_base c8) 0 = 0 := by
  unfold absRowSum
  rw [Finset.sum_range_succ, Finset.sum_range_one, shifted_base_zero, shifted_base_zero]
  norm_num

lemma arF_p8_0 : asset_returnsF p8 1 0 = FV.pinf := by
  norm_num [asset_returnsF, pctRawF, padded, p8, fillna0F]

lemma arF_p8_1 : asset_returnsF p8 1 1 = FV.fin 0 := by
  norm_num [asset_returnsF, pctRawF, padded, p8, fillna0F]

lemma contribF_p8_nan : asset_contributionsF p8 c8 2 1 0 = FV.nan := by
  unfold asset_contributionsF
  rw [sp_c8_0, arF_p8_0]
  rfl

lemma contribF_p8_fin : asset_contributionsF p8 c8 2 1 1 = FV.fin 0 := by
  unfold asset_contributionsF
  rw [sp_c8_1, arF_p8_1]
  norm_num [smulFV]

lemma contribF_p8_row0 (a : ℕ) : asset_contributionsF p8 c8 2 0 a = FV.fin 0 := by
  unfold asset_contributionsF
  rw [shifted_positions_zero_row 2 c8 0 row0_zero_c8 a]
  have har : asset_returnsF p8 0 a = FV.fin 0 := rfl
  rw [har]
  norm_num [smulFV]

lemma cumAF_p8_0 : cumulative_asset_returnsF p8 c8 2 1 0 = FV.nan := by
  unfold cumulative_asset_returnsF
  have hl : ((List.range 2).map fun s => addQ1 (asset_contributionsF p8 c8 2 s 0))
      = [FV.fin 1, FV.nan] := by
    show [addQ1 (asset_contributionsF p8 c8 2 0 0),
          addQ1 (asset_contributionsF p8 c8 2 1 0)] = _
    rw [contribF_p8_row0 0, contribF_p8_nan]
    norm_num [addQ1]
  rw [hl]
  norm_num [List.foldl, mulFV, subQ]

lemma cumAF_p8_1 : cumulative_asset_returnsF p8 c8 2 1 1 = FV.fin 0 := by
  unfold cumulative_asset_returnsF
  have hl : ((List.range 2).map fun s => addQ1 (asset_contributionsF p8 c8 2 s 1))
      = [FV.fin 1, FV.fin 1] := by
    show [addQ1 (asset_contributionsF p8 c8 2 0 1),
          addQ1 (asset_contributionsF p8 c8 2 1 1)] = _
    rw [contribF_p8_row0 1, contribF_p8_fin]
    norm_num [addQ1]
  rw [hl]
  norm_num [List.foldl, mulFV, subQ]

/-- Claim C8 counterexample: on the 2-row, 2-asset table `p8` (asset 0 has
price 0 then 5, asset 1 constant 1) with constant weights [0, 1] and
`specialStart = 1` (nothing trimmed), date row 1 of the
`asset_contributions` and `cumulative_asset_returns` output series contains
`0 * inf = NaN` for asset 0 — `fillna(0)` does not remove the infinity
produced by `pct_change` at a zero price, so the no-NaN guarantee is false
of the program as universally stated. -/
theorem C8_alignment_no_nan_counterexample :
    (calculate_returnsF p8 c8 2 2 1 0 0).contribs[1]? = some [FV.nan, FV.fin 0] ∧
    (calculate_returnsF p8 c8 2 2 1 0 0).cumAsset[1]? = some [FV.nan, FV.fin 0] := by
  constructor
  · have h : (calculate_returnsF p8 c8 2 2 1 0 0).contribs
        = [contribRowF p8 c8 2 0, contribRowF p8 c8 2 1] := rfl
    rw [h]
    have h2 : contribRowF p8 c8 2 1 = [FV.nan, FV.fin 0] := by
      show [asset_contributionsF p8 c8 2 1 0, asset_contributionsF p8 c8 2 1 1] = _
      rw [contribF_p8_nan, contribF_p8_fin]
    simp [h2]
  · have h : (calculate_returnsF p8 c8 2 2 1 0 0).cumAsset
        = [cumAssetRowF p8 c8 2 0, cumAssetRowF p8 c8 2 1] := rfl
    rw [h]
    have h2 : cumAssetRowF p8 c8 2 1 = [FV.nan, FV.fin 0] := by
      show [cumulative_asset_returnsF p8 c8 2 1 0,
            cumulative_asset_returnsF p8 c8 2 1 1] = _
      rw [cumAF_p8_0, cumAF_p8_1]
    simp [h2]

/-- Claim C8 as amended: the five output series always share the same date
index after trimming (equal row counts); and for every price table whose
present prices are strictly positive — excluding the zero-price cells that
make `pct_change` produce an infinity — every cell of every output series
is a finite defined value, equal to the rational-pipeline value, with the
first-observation return row, undefined percent-change cells, the shifted
row 0 and NaN composition cells, and divide-by-zero normalization rows all
mapped to 0 by policy. -/
theorem C8_alignment_no_nan_amended :
    ∀ (price comp : OMat) (T A ss : ℕ) (tcr slr : ℚ),
      ((calculate_returnsF price comp T A ss tcr slr).shifted.length
          = T - (if ss ≠ 1 then ss + 1 else 0) ∧
       (calculate_returnsF price comp T A ss tcr slr).contribs.length
          = T - (if ss ≠ 1 then ss + 1 else 0) ∧
       (calculate_returnsF price comp T A ss tcr slr).portfolio.length
          = T - (if ss ≠ 1 then ss + 1 else 0) ∧
       (calculate_returnsF price comp T A ss tcr slr).cumAsset.length
          = T - (if ss ≠ 1 then ss + 1 else 0) ∧
       (calculate_returnsF price comp T A ss tcr slr).cumulative.length
          = T - (if ss ≠ 1 then ss + 1 else 0)) ∧
      ((∀ u b q, price u b = some q → 0 < q) →
        ∀ t a,
          asset_returnsF price t a = FV.fin (asset_returns price t a) ∧
          asset_contributionsF price comp A t a
            = FV.fin (asset_contributions price comp A t a) ∧
          portfolio_returnsF price comp A tcr slr t
            = FV.fin (portfolio_returns price comp A tcr slr t) ∧
          cumulative_asset_returnsF price comp A t a
            = FV.fin (cumulative_asset_returns price comp A t a) ∧
          cumulative_returnsF price comp A tcr slr t
            = FV.fin (cumulative_returns price comp A tcr slr t)) ∧
      (∀ a, asset_returnsF price 0 a = FV.fin 0) ∧
      (∀ t a, pctRawF price t a = FV.nan → asset_returnsF price t a = FV.fin 0) ∧
      (∀ t a, shiftRaw comp t a = none → shifted_base comp t a = 0) ∧
      (∀ t, absRowSum A (shifted_base comp) t = 0 →
        ∀ a, shifted_positions A comp t a = 0) := by
  intro price comp T A ss tcr slr
  refine ⟨?_, fun hpos t a => ?_, fun a => rfl, fun t a h => ?_, fun t a h => ?_,
    fun t h a => shifted_positions_zero_row A comp t h a⟩
  · simp only [calculate_returnsF]
    exact ⟨drop_map_range_length _ T _, drop_map_range_length _ T _,
      drop_map_range_length _ T _, drop_map_range_length _ T _,
      drop_map_range_length _ T _⟩
  · exact ⟨asset_returnsF_fin price hpos t a, contribF_fin price comp A hpos t a,
      portfolioF_fin price comp A tcr slr hpos t,
      cumAssetF_fin price comp A hpos t a,
      cumRetF_fin price comp A tcr slr hpos t⟩
  · unfold asset_returnsF fillna0F
    rw [h]
  · unfold shifted_base fillna0
    rw [h]
    rfl

lemma d1C10_pos : ∀ u b q, d1C10 u b = some q → 0 < q := by
  intro u b q h
  simp only [d1C10, Option.some.injEq] at h
  rw [← h]
  split <;> norm_num

/-- Witness for the amended C8 at a concrete positive-price table. -/
theorem C8_alignment_no_nan_amended_witness :
    (calculate_returnsF d1C10 cExA 5 1 0 0 0).portfolio.length
        = 5 - (if (0 : ℕ) ≠ 1 then 0 + 1 else 0) ∧
    asset_returnsF d1C10 1 0 = FV.fin (asset_returns d1C10 1 0) ∧
    asset_returnsF d1C10 0 0 = FV.fin 0 ∧
    shifted_positions 1 cExA 0 0 = 0 :=
  ⟨(C8_alignment_no_nan_amended d1C10 cExA 5 1 0 0 0).1.2.2.1,
   ((C8_alignment_no_nan_amended d1C10 cExA 5 1 0 0 0).2.1 d1C10_pos 1 0).1,
   (C8_alignment_no_nan_amended d1C10 cExA 5 1 0 0 0).2.2.1 0,
   (C8_alignment_no_nan_amended d1C10 cExA 5 1 0 0 0).2.2.2.2.2 0
     (by simp [absRowSum, shifted_base, fillna0, shiftRaw]) 0⟩

/-! ### Helper lemmas on the trade evaluator -/

lemma isWin_zero (ltv cv : Option ℚ) : ¬ isWin 0 ltv cv := by
  cases ltv <;> cases cv <;> simp [isWin]

lemma tradeStep_skip (data : OMat) (pos : Mat) (a : ℕ) (s : TradeState) (t : ℕ)
    (h : pos t a = s.lp) : tradeStep data pos a s t = s := by
  unfold tradeStep
  rw [if_pos h]

lemma tradeStep_trade (data : OMat) (pos : Mat) (a : ℕ) (s : TradeState) (t : ℕ)
    (h : pos t a ≠ s.lp) :
    tradeStep data pos a s t
      = ⟨pos t a, data t a, s.tc + 1,
          s.wc + if isWin s.lp s.ltv (data t a) then 1 else 0⟩ := by
  unfold tradeStep
  rw [if_neg h]

lemma tradeLoop_const (data : OMat) (pos : Mat) (a : ℕ) :
    ∀ (n t : ℕ) (s : TradeState), (∀ k, k < n → pos (t + k) a = s.lp) →
      tradeLoop data pos a s t n = s := by
  intro n
  induction n with
  | zero => intro t s _; rfl
  | succ m ih =>
    intro t s h
    have h0 : pos t a = s.lp := by simpa using h 0 (Nat.succ_pos m)
    show tradeLoop data pos a (tradeStep data pos a s t) (t + 1) m = s
    rw [tradeStep_skip data pos a s t h0]
    apply ih
    intro k hk
    have hsh := h (k + 1) (Nat.succ_lt_succ hk)
    rwa [show t + 1 + k = t + (k + 1) by omega]

lemma tradeLoop_wc_zeros_const (data : OMat) (pos : Mat) (a : ℕ) (v : ℚ) :
    ∀ (n k t : ℕ) (s : TradeState), s.lp = 0 →
      (∀ j, j < n → pos (t + j) a = if j < k then 0 else v) →
      (tradeLoop data pos a s t n).wc = s.wc := by
  intro n
  induction n with
  | zero => intros; rfl
  | succ m ih =>
    intro k t s hlp h
    have h0 : pos t a = if 0 < k then 0 else v := by simpa using h 0 (Nat.succ_pos m)
    cases k with
    | zero =>
      simp only [lt_irrefl, if_neg, if_false] at h0
      by_cases hv : v = 0
      · have hconst : tradeLoop data pos a s t (m + 1) = s := by
          apply tradeLoop_const
          intro j hj
          rw [h j hj, hlp]
          split <;> simp [hv]
        rw [hconst]
      · show (tradeLoop data pos a (tradeStep data pos a s t) (t + 1) m).wc = s.wc
        have hne : pos t a ≠ s.lp := by
          rw [h0, hlp]
          exact hv
        rw [tradeStep_trade data pos a s t hne, hlp]
        rw [if_neg (isWin_zero s.ltv (data t a))]
        have hconst :
            tradeLoop data pos a
              (⟨pos t a, data t a, s.tc + 1, s.wc + 0⟩ : TradeState) (t + 1) m
              = ⟨pos t a, data t a, s.tc + 1, s.wc + 0⟩ := by
          apply tradeLoop_const
          intro j hj
          show pos (t + 1 + j) a = pos t a
          have hsh := h (j + 1) (Nat.succ_lt_succ hj)
          rw [show t + 1 + j = t + (j + 1) by omega, hsh, h0]
          simp
        rw [hconst]
        rfl
    | succ p =>
      have h00 : pos t a = 0 := by
        rw [h0, if_pos (Nat.succ_pos p)]
      show (tradeLoop data pos a (tradeStep data pos a s t) (t + 1) m).wc = s.wc
      rw [tradeStep_skip data pos a s t (h00.trans hlp.symm)]
      apply ih p (t + 1) s hlp
      intro j hj
      have hsh := h (j + 1) (Nat.succ_lt_succ hj)
      rw [show t + 1 + j = t + (j + 1) by omega, hsh]
      simp [Nat.succ_lt_succ_iff]

lemma tradeScanAsset_wc_zero (data : OMat) (pos : Mat) (off n a : ℕ) (k : ℕ) (v : ℚ)
    (h : ∀ j, j < n → pos (off + j) a = if j < k then 0 else v) :
    (tradeScanAsset data pos off n a).wc = 0 := by
  cases n with
  | zero => rfl
  | succ m =>
    unfold tradeScanAsset
    cases k with
    | zero =>
      have h0 : pos off a = v := by simpa using h 0 (Nat.succ_pos m)
      have hconst : tradeLoop data pos a ⟨pos off a, data 0 a, 0, 0⟩ off (m + 1)
          = ⟨pos off a, data 0 a, 0, 0⟩ := by
        apply tradeLoop_const
        intro j hj
        show pos (off + j) a = pos off a
        rw [h j hj, h0]
        simp
      rw [hconst]
    | succ p =>
      apply tradeLoop_wc_zeros_const data pos a v (m + 1) (p + 1) off _ _ h
      show pos off a = 0
      have h0 := h 0 (Nat.succ_pos m)
      rw [Nat.add_zero] at h0
      rw [h0, if_pos (Nat.succ_pos p)]

lemma tradeLoop_congr_data (data data' : OMat) (pos : Mat) (a : ℕ) :
    ∀ (n t : ℕ) (s : TradeState),
      (∀ k, k < n → data (t + k) a = data' (t + k) a) →
      tradeLoop data pos a s t n = tradeLoop data' pos a s t n := by
  intro n
  induction n with
  | zero => intros; rfl
  | succ m ih =>
    intro t s h
    have h0 : data t a = data' t a := by simpa using h 0 (Nat.succ_pos m)
    show tradeLoop data pos a (tradeStep data pos a s t) (t + 1) m
        = tradeLoop data' pos a (tradeStep data' pos a s t) (t + 1) m
    have hstep : tradeStep data pos a s t = tradeStep data' pos a s t := by
      unfold tradeStep
      rw [h0]
    rw [hstep]
    apply ih
    intro k hk
    have hsh := h (k + 1) (Nat.succ_lt_succ hk)
    rwa [show t + 1 + k = t + (k + 1) by omega]

lemma tradeLoop_congr_pos (data : OMat) (pos pos' : Mat) (a : ℕ) :
    ∀ (n t : ℕ) (s : TradeState),
      (∀ k, k < n → pos (t + k) a = pos' (t + k) a) →
      tradeLoop data pos a s t n = tradeLoop data pos' a s t n := by
  intro n
  induction n with
  | zero => intros; rfl
  | succ m ih =>
    intro t s h
    have h0 : pos t a = pos' t a := by simpa using h 0 (Nat.succ_pos m)
    show tradeLoop data pos a (tradeStep data pos a s t) (t + 1) m
        = tradeLoop data pos' a (tradeStep data pos' a s t) (t + 1) m
    have hstep : tradeStep data pos a s t = tradeStep data pos' a s t := by
      unfold tradeStep
      rw [h0]
    rw [hstep]
    apply ih
    intro k hk
    have hsh := h (k + 1) (Nat.succ_lt_succ hk)
    rwa [show t + 1 + k = t + (k + 1) by omega]

/-! ### Claims C5, C9 and C10 -/

/-- Claim C5: in `evaluate_trade`, scanning each asset independently in
date order, a trade is counted exactly when the current position differs
from the last recorded position; a counted trade is a win exactly when the
outgoing position was strictly positive and the current price strictly
exceeds `lastTradeValue`, or the outgoing position was strictly negative
and the current price is strictly below `lastTradeValue`; on every counted
trade both `lastTradeValue` and `lastPosition` are reset regardless of
win or loss; and an asset whose position never changes over the window
contributes zero trades. -/
theorem C5_trade_semantics :
    (∀ (data : OMat) (pos : Mat) (a : ℕ) (s : TradeState) (t : ℕ),
        pos t a = s.lp → tradeStep data pos a s t = s) ∧
    (∀ (data : OMat) (pos : Mat) (a : ℕ) (s : TradeState) (t : ℕ),
        pos t a ≠ s.lp →
          (tradeStep data pos a s t).tc = s.tc + 1 ∧
          (tradeStep data pos a s t).lp = pos t a ∧
          (tradeStep data pos a s t).ltv = data t a ∧
          (∀ l c, s.ltv = some l → data t a = some c →
            (tradeStep data pos a s t).wc
              = s.wc + if (0 < s.lp ∧ l < c) ∨ (s.lp < 0 ∧ c < l) then 1 else 0)) ∧
    (∀ (data : OMat) (pos : Mat) (off n a : ℕ),
        (∀ k, k < n → pos (off + k) a = pos off a) →
          (tradeScanAsset data pos off n a).tc = 0 ∧
          (tradeScanAsset data pos off n a).wc = 0) := by
  refine ⟨tradeStep_skip, fun data pos a s t h => ?_, fun data pos off n a h => ?_⟩
  · rw [tradeStep_trade data pos a s t h]
    refine ⟨rfl, rfl, rfl, fun l c hl hc => ?_⟩
    simp only [hl, hc, isWin]
  · have hconst : tradeScanAsset data pos off n a = ⟨pos off a, data 0 a, 0, 0⟩ := by
      unfold tradeScanAsset
      exact tradeLoop_const data pos a n off _ h
    rw [hconst]
    exact ⟨rfl, rfl⟩

/-- Witness for C5 at a concrete step and a concrete constant asset. -/
theorem C5_trade_semantics_witness :
    tradeStep dataEx posEx 0 ⟨2, some 10, 3, 1⟩ 1 = ⟨2, some 10, 3, 1⟩ ∧
    (tradeStep dataEx posEx 0 ⟨1, some 10, 0, 0⟩ 1).tc = 0 + 1 ∧
    (tradeScanAsset dataEx (fun _ _ => 1) 0 4 0).tc = 0 :=
  ⟨C5_trade_semantics.1 dataEx posEx 0 ⟨2, some 10, 3, 1⟩ 1 (by decide),
   (C5_trade_semantics.2.1 dataEx posEx 0 ⟨1, some 10, 0, 0⟩ 1 (by decide)).1,
   (C5_trade_semantics.2.2 dataEx (fun _ _ => 1) 0 4 0 (fun k _ => rfl)).1⟩

/-- Claim C9: a trade whose outgoing position is exactly zero is never
counted as a win: whenever a position change is detected while
`lastPosition = 0`, `tradeCount` is incremented but `winTradeCount` is not,
regardless of the price move; hence a run in which each asset changes
position at most once starting from zero reports `winTradeCount = 0`. -/
theorem C9_zero_outgoing_no_win :
    (∀ (data : OMat) (pos : Mat) (a : ℕ) (s : TradeState) (t : ℕ), s.lp = 0 →
        (tradeStep data pos a s t).wc = s.wc ∧
        (pos t a ≠ 0 → (tradeStep data pos a s t).tc = s.tc + 1)) ∧
    (∀ (data : OMat) (pos : Mat) (off n A tc wc : ℕ),
        (∀ a, a < A → ∃ k, ∃ v : ℚ,
          ∀ j, j < n → pos (off + j) a = if j < k then 0 else v) →
        evaluate_trade data pos off n A = some (tc, wc) → wc = 0) := by
  constructor
  · intro data pos a s t hlp
    constructor
    · by_cases h : pos t a = s.lp
      · rw [tradeStep_skip data pos a s t h]
      · rw [tradeStep_trade data pos a s t h, hlp]
        show s.wc + (if isWin 0 s.ltv (data t a) then 1 else 0) = s.wc
        rw [if_neg (isWin_zero s.ltv (data t a))]
        rfl
    · intro hne
      have h : pos t a ≠ s.lp := by rw [hlp]; exact hne
      rw [tradeStep_trade data pos a s t h]
  · intro data pos off n A tc wc h he
    unfold evaluate_trade at he
    split at he
    · exact absurd he (by simp)
    · have hw : (∑ a ∈ Finset.range A, (tradeScanAsset data pos off n a).wc) = wc := by
        have := Option.some.inj he
        exact (Prod.mk.injEq _ _ _ _).mp this |>.2
      rw [← hw]
      apply Finset.sum_eq_zero
      intro a ha
      obtain ⟨k, v, hk⟩ := h a (Finset.mem_range.mp ha)
      exact tradeScanAsset_wc_zero data pos off n a k v hk

lemma evaluate_trade_posEx9 : evaluate_trade dataEx posEx9 0 4 1 = some (1, 0) := by
  norm_num [evaluate_trade, tradeScanAsset, tradeLoop, tradeStep, isWin, dataEx, posEx9]

/-- Witness for C9: the step at the entry date counts a trade but no win,
and the whole run over a single enter-once asset reports zero wins. -/
theorem C9_zero_outgoing_no_win_witness :
    (tradeStep dataEx posEx9 0 ⟨0, some 10, 0, 0⟩ 2).wc = 0 ∧
    (tradeStep dataEx posEx9 0 ⟨0, some 10, 0, 0⟩ 2).tc = 0 + 1 ∧
    (0 : ℕ) = 0 :=
  ⟨(C9_zero_outgoing_no_win.1 dataEx posEx9 0 ⟨0, some 10, 0, 0⟩ 2 rfl).1,
   (C9_zero_outgoing_no_win.1 dataEx posEx9 0 ⟨0, some 10, 0, 0⟩ 2 rfl).2 (by decide),
   C9_zero_outgoing_no_win.2 dataEx posEx9 0 4 1 1 0
     (fun a _ => ⟨2, 1, fun j hj => by simp [posEx9]⟩) evaluate_trade_posEx9⟩

/-- Claim C10: `evaluate_trade` initializes `lastTradeValue` per asset from
row 0 of the full, untrimmed price table and compares against prices of
that full table, while `lastPosition` is initialized from the trimmed
window's first row: the result is invariant under changes of the price
table outside row 0 and the window, invariant under changes of the
positions outside the window, the window passed by `calculate_returns`
when `specialStart ≠ 1` starts at row `specialStart + 1`, and two tables
differing only in the warm-up row 0 yield different win counts. -/
theorem C10_trade_init_full_table :
    (∀ (data data' : OMat) (pos : Mat) (off n A : ℕ),
        (∀ a, a < A → data 0 a = data' 0 a) →
        (∀ t a, a < A → off ≤ t → t < off + n → data t a = data' t a) →
        evaluate_trade data pos off n A = evaluate_trade data' pos off n A) ∧
    (∀ (data : OMat) (pos pos' : Mat) (off n A : ℕ),
        (∀ t a, a < A → off ≤ t → t < off + n → pos t a = pos' t a) →
        evaluate_trade data pos off n A = evaluate_trade data pos' off n A) ∧
    (∀ (price comp : OMat) (T A ss : ℕ) (tcr slr : ℚ), ss ≠ 1 →
        (calculate_returns price comp T A ss tcr slr).trade
          = evaluate_trade price (shifted_positions A comp) (ss + 1) (T - (ss + 1)) A) ∧
    (evaluate_trade d1C10 pC10 2 2 1 = some (1, 1) ∧
     evaluate_trade d2C10 pC10 2 2 1 = some (1, 0) ∧
     d1C10 2 0 = d2C10 2 0 ∧ d1C10 3 0 = d2C10 3 0 ∧ d1C10 0 0 ≠ d2C10 0 0) := by
  refine ⟨?_, ?_, ?_, ?_, ?_, ?_, ?_, ?_⟩
  · intro data data' pos off n A h0 hw
    unfold evaluate_trade
    split
    · rfl
    · have hscan : ∀ a ∈ Finset.range A,
          tradeScanAsset data pos off n a = tradeScanAsset data' pos off n a := by
        intro a ha
        unfold tradeScanAsset
        rw [h0 a (Finset.mem_range.mp ha)]
        apply tradeLoop_congr_data
        intro k hk
        exact hw (off + k) a (Finset.mem_range.mp ha) (Nat.le_add_right off k) (by omega)
      have h1 : (∑ a ∈ Finset.range A, (tradeScanAsset data pos off n a).tc)
          = ∑ a ∈ Finset.range A, (tradeScanAsset data' pos off n a).tc :=
        Finset.sum_congr rfl fun a ha => by rw [hscan a ha]
      have h2 : (∑ a ∈ Finset.range A, (tradeScanAsset data pos off n a).wc)
          = ∑ a ∈ Finset.range A, (tradeScanAsset data' pos off n a).wc :=
        Finset.sum_congr rfl fun a ha => by rw [hscan a ha]
      rw [h1, h2]
  · intro data pos pos' off n A hw
    unfold evaluate_trade
    split
    · rfl
    · rename_i hcond
      have hscan : ∀ a ∈ Finset.range A,
          tradeScanAsset data pos off n a = tradeScanAsset data pos' off n a := by
        intro a ha
        have hn' : n ≠ 0 := by
          by_cases hn0 : n = 0
          · have hA : A = 0 := by
              by_contra hA
              exact hcond ⟨hn0, hA⟩
            exact absurd (Finset.mem_range.mp ha) (by omega)
          · exact hn0
        unfold tradeScanAsset
        rw [hw off a (Finset.mem_range.mp ha) (Nat.le_refl off) (by omega)]
        apply tradeLoop_congr_pos
        intro k hk
        exact hw (off + k) a (Finset.mem_range.mp ha) (Nat.le_add_right off k) (by omega)
      have h1 : (∑ a ∈ Finset.range A, (tradeScanAsset data pos off n a).tc)
          = ∑ a ∈ Finset.range A, (tradeScanAsset data pos' off n a).tc :=
        Finset.sum_congr rfl fun a ha => by rw [hscan a ha]
      have h2 : (∑ a ∈ Finset.range A, (tradeScanAsset data pos off n a).wc)
          = ∑ a ∈ Finset.range A, (tradeScanAsset data pos' off n a).wc :=
        Finset.sum_congr rfl fun a ha => by rw [hscan a ha]
      rw [h1, h2]
  · intro price comp T A ss tcr slr h
    have hoff : (if ss ≠ 1 then ss + 1 else 0) = ss + 1 := if_pos h
    simp only [calculate_returns, hoff]
  · show evaluate_trade d1C10 pC10 2 2 1 = some (1, 1)
    norm_num [evaluate_trade, tradeScanAsset, tradeLoop, tradeStep, isWin, d1C10, pC10]
  · show evaluate_trade d2C10 pC10 2 2 1 = some (1, 0)
    norm_num [evaluate_trade, tradeScanAsset, tradeLoop, tradeStep, isWin, d2C10, pC10]
  · rfl
  · rfl
  · decide

/-- Witness for C10: the general invariance parts applied at the concrete
tables and windows. -/
theorem C10_trade_init_full_table_witness :
    evaluate_trade d1C10 pC10 2 2 1 = evaluate_trade d3C10 pC10 2 2 1 ∧
    (calculate_returns d1C10 cExA 5 1 3 0 0).trade
      = evaluate_trade d1C10 (shifted_positions 1 cExA) (3 + 1) (5 - (3 + 1)) 1 :=
  ⟨C10_trade_init_full_table.1 d1C10 d3C10 pC10 2 2 1
      (fun a _ => by
        show d1C10 0 a = d3C10 0 a
        simp [d3C10])
      (fun t a _ h2 h4 => by
        show d1C10 t a = d3C10 t a
        simp only [d3C10]
        rw [if_neg (by omega)]),
   C10_trade_init_full_table.2.2.1 d1C10 cExA 5 1 3 0 0 (by decide)⟩

/-! ### Claim C7: counterexample and amended statement -/

lemma portfolio_returns_cost_mono (price comp : OMat) (A : ℕ) (slr : ℚ) (t : ℕ)
    (tcr tcr' : ℚ) (hlt : tcr < tcr') :
    (turnover A (shifted_positions A comp) t ≠ 0 →
      portfolio_returns price comp A tcr' slr t
        < portfolio_returns price comp A tcr slr t) ∧
    (turnover A (shifted_positions A comp) t = 0 →
      portfolio_returns price comp A tcr' slr t
        = portfolio_returns price comp A tcr slr t) := by
  have hnn : 0 ≤ turnover A (shifted_positions A comp) t := by
    unfold turnover sumAbsSkipna
    exact Finset.sum_nonneg fun _ _ => abs_nonneg _
  constructor
  · intro hne
    have hpos : 0 < turnover A (shifted_positions A comp) t := hnn.lt_of_ne (Ne.symm hne)
    unfold portfolio_returns calculate_transaction_costs calculate_slippage_costs
    have hmul := mul_lt_mul_of_pos_left hlt hpos
    linarith
  · intro hz
    unfold portfolio_returns calculate_transaction_costs calculate_slippage_costs
    rw [hz]
    simp

lemma sp_cExC_0 : shifted_positions 1 cExC 0 0 = 0 := by
  apply shifted_positions_zero_row
  simp [absRowSum, shifted_base, fillna0, shiftRaw]

lemma sp_cExC_1 : shifted_positions 1 cExC 1 0 = 1 := by
  rw [shifted_positions_eq]
  have hb : shifted_base cExC 1 0 = 1 := rfl
  have habs : absRowSum 1 (shifted_base cExC) 1 = 1 := by
    unfold absRowSum
    rw [Finset.sum_range_one, hb]
    norm_num
  rw [habs, hb]
  norm_num

lemma turnover_cExC : turnover 1 (shifted_positions 1 cExC) 1 ≠ 0 := by
  unfold turnover sumAbsSkipna diffRow
  rw [Finset.sum_range_one]
  norm_num [sp_cExC_0, sp_cExC_1]

lemma arF_p7 : asset_returnsF p7 1 0 = FV.pinf := by
  norm_num [asset_returnsF, pctRawF, padded, p7, fillna0F]

lemma portfolio_returnsF_p7 (tcr slr : ℚ) :
    portfolio_returnsF p7 cExC 1 tcr slr 1 = FV.pinf := by
  have hc : asset_contributionsF p7 cExC 1 1 0 = FV.pinf := by
    unfold asset_contributionsF
    rw [sp_cExC_1, arF_p7]
    norm_num [smulFV]
  unfold portfolio_returnsF
  have hrow : rowSumF 1 (fun a => asset_contributionsF p7 cExC 1 1 a) = FV.pinf := by
    unfold rowSumF
    have hl : ((List.range 1).map fun a => asset_contributionsF p7 cExC 1 1 a)
        = [FV.pinf] := by
      show [asset_contributionsF p7 cExC 1 1 0] = [FV.pinf]
      rw [hc]
    rw [hl]
    simp
  rw [hrow]
  rfl

/-- Claim C7 counterexample: on the single-asset table `p7` (price 0 then
5) with constant position 1, date 1 has turnover 1 ≠ 0, yet raising the
transaction cost rate from 0 to 1 leaves `portfolioReturns[1]` unchanged:
the `pct_change` infinity survives `fillna(0)`, so the return is `+inf` at
both rates and the claimed strict decrease fails. -/
theorem C7_cost_monotonicity_counterexample :
    (0 : ℚ) < 1 ∧
    turnover 1 (shifted_positions 1 cExC) 1 ≠ 0 ∧
    portfolio_returnsF p7 cExC 1 1 0 1 = portfolio_returnsF p7 cExC 1 0 0 1 ∧
    portfolio_returnsF p7 cExC 1 0 0 1 = FV.pinf := by
  refine ⟨one_pos, turnover_cExC, ?_, portfolio_returnsF_p7 0 0⟩
  rw [portfolio_returnsF_p7 1 0, portfolio_returnsF_p7 0 0]

/-- Claim C7 as amended: for price tables whose present prices are
strictly positive (excluding the zero-price cells that make `pct_change`
produce an infinite return), the portfolio return is the finite
rational-pipeline value, and with all else fixed a strictly larger
transaction cost rate strictly decreases `portfolioReturns[t]` at every
date with nonzero turnover and leaves it unchanged at every date with zero
turnover. -/
theorem C7_cost_monotonicity_amended :
    ∀ (price comp : OMat) (A : ℕ) (slr : ℚ) (t : ℕ) (tcr tcr' : ℚ),
      tcr < tcr' →
      (∀ u b q, price u b = some q → 0 < q) →
      portfolio_returnsF price comp A tcr slr t
          = FV.fin (portfolio_returns price comp A tcr slr t) ∧
      portfolio_returnsF price comp A tcr' slr t
          = FV.fin (portfolio_returns price comp A tcr' slr t) ∧
      (turnover A (shifted_positions A comp) t ≠ 0 →
        portfolio_returns price comp A tcr' slr t
          < portfolio_returns price comp A tcr slr t) ∧
      (turnover A (shifted_positions A comp) t = 0 →
        portfolio_returns price comp A tcr' slr t
          = portfolio_returns price comp A tcr slr t) := by
  intro price comp A slr t tcr tcr' hlt hpos
  exact ⟨portfolioF_fin price comp A tcr slr hpos t,
    portfolioF_fin price comp A tcr' slr hpos t,
    (portfolio_returns_cost_mono price comp A slr t tcr tcr' hlt).1,
    (portfolio_returns_cost_mono price comp A slr t tcr tcr' hlt).2⟩

/-- Witness for the amended C7: on a positive-price table the finite value
witness holds and raising the rate from 0 to 1 strictly lowers the
portfolio return at the turnover date. -/
theorem C7_cost_monotonicity_amended_witness :
    portfolio_returnsF d1C10 cExC 1 0 0 1
        = FV.fin (portfolio_returns d1C10 cExC 1 0 0 1) ∧
    turnover 1 (shifted_positions 1 cExC) 1 ≠ 0 ∧
    portfolio_returns d1C10 cExC 1 1 0 1 < portfolio_returns d1C10 cExC 1 0 0 1 :=
  ⟨(C7_cost_monotonicity_amended d1C10 cExC 1 0 1 0 1 zero_lt_one d1C10_pos).1,
   turnover_cExC,
   (C7_cost_monotonicity_amended d1C10 cExC 1 0 1 0 1 zero_lt_one d1C10_pos).2.2.1
     turnover_cExC⟩

/-! ### Claim C3: behavior at an out-of-range specialStart -/

/-- Claim C3 (code behavior at the failing input): with `specialStart = 5`
on a 2-row table, no validation runs before composition building; the
composition matrix is built and is entirely NaN, all series are computed
and trimmed to empty, and the failure that finally surfaces is the
IndexError inside `evaluate_trade` (modelled `none`) — there is no
`InputShapeError` raised before composition building. -/
theorem C3_missing_input_validation :
    c3 0 0 = none ∧ c3 1 0 = none ∧
    (calculate_returns p3 c3 2 1 5 0 0).trade = none ∧
    (calculate_returns p3 c3 2 1 5 0 0).portfolio = [] ∧
    run p3 2 1 5 0 0 reb3 strat3 = none :=
  ⟨rfl, rfl, rfl, rfl, rfl⟩

/-! ### Claim C6: scenario 1 -/

lemma compState_c6 : ∀ k, compState 0 reb6 (strat6 0) k = 1 := by
  intro k
  induction k with
  | zero => rfl
  | succ m ih =>
    show (if reb6 (0 + (m + 1)) then strat6 0 (0 + (m + 1)) _ else compState 0 reb6 (strat6 0) m) = 1
    have : reb6 (0 + (m + 1)) = false := by
      simp [reb6]
    rw [this]
    simpa using ih

lemma c6_entries : ∀ k, k < 5 → c6 k 0 = some 1 := by
  intro k hk
  unfold c6 calculate_composition_matrix
  rw [if_pos ⟨Nat.zero_le k, hk⟩]
  rw [show k - 0 = k from rfl, compState_c6 k]

lemma sp6 : ∀ t, 1 ≤ t → t < 5 → shifted_positions 1 c6 t 0 = 1 := by
  intro t h1 h5
  have hb : shifted_base c6 t 0 = 1 := by
    cases t with
    | zero => omega
    | succ m =>
      rw [shifted_base_succ, c6_entries m (by omega)]
      rfl
  have habs : absRowSum 1 (shifted_base c6) t = 1 := by
    unfold absRowSum
    rw [Finset.sum_range_one, hb]
    norm_num
  rw [shifted_positions_eq, habs, hb]
  norm_num

lemma c6_trade_eval : (calculate_returns p6 c6 5 1 0 0 0).trade = some (0, 0) := by
  show evaluate_trade p6 (shifted_positions 1 c6) 1 4 1 = some (0, 0)
  unfold evaluate_trade
  rw [if_neg (by simp)]
  have hscan : tradeScanAsset p6 (shifted_positions 1 c6) 1 4 0
      = ⟨shifted_positions 1 c6 1 0, p6 0 0, 0, 0⟩ := by
    unfold tradeScanAsset
    apply tradeLoop_const
    intro k hk
    show shifted_positions 1 c6 (1 + k) 0 = shifted_positions 1 c6 1 0
    rw [sp6 (1 + k) (by omega) (by omega), sp6 1 (by omega) (by omega)]
  rw [Finset.sum_range_one, Finset.sum_range_one, hscan]

lemma c6_portfolio_eval :
    (calculate_returns p6 c6 5 1 0 0 0).portfolio = [1/10, -1/10, 0, 7/33] := by
  show [portfolio_returns p6 c6 1 0 0 1, portfolio_returns p6 c6 1 0 0 2,
        portfolio_returns p6 c6 1 0 0 3, portfolio_returns p6 c6 1 0 0 4]
      = [1/10, -1/10, 0, 7/33]
  have hpr : ∀ t, 1 ≤ t → t < 5 →
      portfolio_returns p6 c6 1 0 0 t = asset_returns p6 t 0 := by
    intro t h1 h5
    unfold portfolio_returns calculate_transaction_costs calculate_slippage_costs
    rw [Finset.sum_range_one]
    unfold asset_contributions
    rw [sp6 t h1 h5]
    ring
  rw [hpr 1 (by omega) (by omega), hpr 2 (by omega) (by omega),
      hpr 3 (by omega) (by omega), hpr 4 (by omega) (by omega)]
  norm_num [asset_returns, fillna0, pctRaw, padded, p6, pval]

/-- Claim C6 counterexample: in scenario 1 (single asset, prices
[100,110,99,99,120], position 1 decided at the date-0 rebalancing, zero
costs) the code does NOT report `tradeCount = 1`: the warm-up trim removes
the initial zero-position row before trade evaluation, so the entry trade
is never observed. -/
theorem C6_scenario1_counterexample :
    ¬ (Option.map Prod.fst (calculate_returns p6 c6 5 1 0 0 0).trade = some 1) := by
  rw [c6_trade_eval]
  decide

/-- Claim C6 as amended: in scenario 1 the trimmed `portfolioReturns`
equal the asset's raw percent-change at the retained dates 1..4, and the
trade statistics are `tradeCount = 0` and `winTradeCount = 0`, because the
warm-up trim (`specialStart = 0 ≠ 1` drops one row) removes the only row
on which the position differs from its successor. -/
theorem C6_scenario1_amended :
    (calculate_returns p6 c6 5 1 0 0 0).trade = some (0, 0) ∧
    (calculate_returns p6 c6 5 1 0 0 0).portfolio = [1/10, -1/10, 0, 7/33] :=
  ⟨c6_trade_eval, c6_portfolio_eval⟩

end Backtester
